import Mathlib

/-!
# Verification of the SecretScanner scan engine

A shallow embedding of the scan engine of `khulnasoft-lab/SecretScanner`
(files `scan/process_image.go`, `jobs/scan.go`, `core` options), together
with theorems settling the specification claims about it.

Strings are modelled as `List Char`; Go `map[uint]uint` as an association
list `List (Nat × Nat)`; fallible Go functions return their error value
explicitly as an `Option GoError` component.  Functions from the repository
that are not part of the provided sources (the `signature` matchers and the
`core` predicates) are modelled from the specification; their doc comments
say so explicitly.
-/

set_option autoImplicit false

namespace SecretScanner

/-- Errors observable in the modelled fragment, mirroring the `error`
values the Go code creates or receives. -/
inductive GoError where
  | walkEntryError
  | checkpointCancelled
  | maxSecretsExceeded
  | readError
  | createDirError
  | extractError
  | decodeError
  deriving Repr, DecidableEq

/-! ## Go string helpers (`strings` package operations used by the code) -/

/-- `strings.TrimSuffix(s, suffix)`: removes one trailing copy of
`suffix` when present, otherwise returns `s` unchanged. -/
def stringsTrimSuffix (s sfx : List Char) : List Char :=
  if sfx.isSuffixOf s then s.take (s.length - sfx.length) else s

/-- `strings.Replace(s, old, new, 1)`: replaces the first occurrence of
`old` in `s` by `new` (at most once), keeping the text before the
occurrence.  The haystack is scanned left to right (last argument). -/
def stringsReplaceOnceAux (old new : List Char) : List Char → List Char
  | [] => if old.isPrefixOf [] then new else []
  | c :: rest =>
    if old.isPrefixOf (c :: rest) then new ++ (c :: rest).drop old.length
    else c :: stringsReplaceOnceAux old new rest

/-- `strings.Replace(s, old, new, 1)` with Go's argument order. -/
def stringsReplaceOnce (s old new : List Char) : List Char :=
  stringsReplaceOnceAux old new s

/-! ## Manifest parsing (`extractDetailsFromManifest`, `extractImage`) -/

/-- The `"/layer.tar"` suffix stripped from layer paths. -/
def slashLayerTarSuffix : List Char := ['/', 'l', 'a', 'y', 'e', 'r', '.', 't', 'a', 'r']

/-- The `".tar"` suffix stripped from layer paths. -/
def dotTarSuffix : List Char := ['.', 't', 'a', 'r']

/-- The `".json"` suffix stripped from the manifest `Config` field. -/
def dotJsonSuffix : List Char := ['.', 'j', 's', 'o', 'n']

/-- The decoded form of one entry of `manifest.json` (Go `manifestItem`). -/
structure manifestItem where
  Config : List Char
  RepoTags : List (List Char)
  Layers : List (List Char)
  LayerIds : List (List Char)
  deriving Repr, DecidableEq

/-- The zero value `manifestItem{}` of Go. -/
def emptyManifestItem : manifestItem := ⟨[], [], [], []⟩

/-- Derivation of `LayerIds` performed by `extractDetailsFromManifest`:
each layer path is stripped of a trailing `/layer.tar` and then of a
trailing `.tar`. -/
def deriveLayerIds (m : manifestItem) : manifestItem :=
  { m with
    LayerIds := m.Layers.map
      (fun layer => stringsTrimSuffix (stringsTrimSuffix layer slashLayerTarSuffix) dotTarSuffix) }

/-- `extractDetailsFromManifest`, applied to the outcome of opening and
JSON-decoding `<tempdir>/manifest.json`.  Mirrors the Go control flow: a
decode error is returned as-is; when the decoded array does not have
exactly one entry the code executes `return manifestItem{}, err` — but in
that branch `err` is `nil`, so the error component is `none`. -/
def extractDetailsFromManifest (decoded : Except GoError (List manifestItem)) :
    manifestItem × Option GoError :=
  match decoded with
  | .error e => (emptyManifestItem, some e)
  | .ok manifest =>
    if manifest.length ≠ 1 then
      (emptyManifestItem, none)
    else
      match manifest with
      | [m] => (deriveLayerIds m, none)
      | _ => (emptyManifestItem, none)

/-- The image id derived in `extractImage`: the manifest `Config` field
with a trailing `.json` stripped. -/
def extractImageImageId (m : manifestItem) : List Char :=
  stringsTrimSuffix m.Config dotJsonSuffix

/-! ## Host-mount path rewriting (`jobs/scan.go`)

Modelled from the spec: the globals `SecretScanDir` and `HostMountDir` of
the `jobs` package are not part of the provided sources.  Per the spec,
when the `host-mount-path` option is set to a non-empty path `P` the
boundary strips `P` from every reported path, i.e. the guard
`SecretScanDir == HostMountDir` is satisfied and both equal `P`. -/

/-- The `full_filename` rewriting performed by `writeSingleScanData`: when
the guard `SecretScanDir == HostMountDir` holds, the first occurrence of
`SecretScanDir` in the filename is replaced by the empty string. -/
def writeSingleScanDataFullFilename (secretScanDir hostMountDir fullFilename : List Char) :
    List Char :=
  if secretScanDir = hostMountDir then stringsReplaceOnce fullFilename secretScanDir []
  else fullFilename

/-- The `full_filename` rewriting performed by `writeMultiScanData` on a
batch of records: the same per-record rewrite applied to each. -/
def writeMultiScanDataFullFilenames (secretScanDir hostMountDir : List Char)
    (fullFilenames : List (List Char)) : List (List Char) :=
  fullFilenames.map (writeSingleScanDataFullFilename secretScanDir hostMountDir)

/-! ## Untar destination paths (`untar`)

File-system paths are modelled as lists of path segments; an absolute path
is the list of segments below the root.  `filepath.Clean` on an absolute
path resolves `.`, `..` and empty segments lexically, dropping `..` at the
root; `filepath.Join(a, b)` is `Clean(a + "/" + b)`; and
`filepath.Rel("/", name)` for an absolute `name` is its cleaned segment
list. -/

/-- One path segment as seen by `filepath.Clean`. -/
inductive PathSeg where
  | empty
  | dot
  | dotdot
  | name (n : Nat)
  deriving Repr, DecidableEq

/-- Stack-based lexical cleaning of an absolute path: `.` and empty
segments are dropped, `..` pops the previous segment (and is dropped at
the root). -/
def cleanAbsAux : List PathSeg → List PathSeg → List PathSeg
  | stack, [] => stack
  | stack, .empty :: rest => cleanAbsAux stack rest
  | stack, .dot :: rest => cleanAbsAux stack rest
  | stack, .dotdot :: rest => cleanAbsAux stack.dropLast rest
  | stack, .name n :: rest => cleanAbsAux (stack ++ [.name n]) rest

/-- `filepath.Clean` on an absolute path, in segment form. -/
def filepathCleanAbs (segs : List PathSeg) : List PathSeg :=
  cleanAbsAux [] segs

/-- The name recorded in a tar header: whether it is absolute, and its
segments. -/
structure TarHeaderName where
  isAbsolute : Bool
  segments : List PathSeg
  deriving Repr, DecidableEq

/-- The path at which `untar` creates a header's file or directory entry:
an absolute name is first re-rooted with `filepath.Rel("/", name)` (which
cleans it), then `absFileName := filepath.Join(absPath, fileName)` joins
it onto the target directory and cleans the result. -/
def untarFileDest (targetDir : List PathSeg) (hdr : TarHeaderName) : List PathSeg :=
  let fileName := if hdr.isAbsolute then filepathCleanAbs hdr.segments else hdr.segments
  filepathCleanAbs (targetDir ++ fileName)

/-- The intermediate directory `untar` creates with `os.MkdirAll` when the
member name contains a separator: the join of the target directory with
all but the last segment of the member name. -/
def untarDirDest (targetDir : List PathSeg) (hdr : TarHeaderName) : Option (List PathSeg) :=
  let fileName := if hdr.isAbsolute then filepathCleanAbs hdr.segments else hdr.segments
  if 2 ≤ fileName.length then some (filepathCleanAbs (targetDir ++ fileName.dropLast))
  else none

/-! ## `readFile` (line filtering before content matching)

File contents are modelled as `List Char`.  `readFile` reads the file with
a `bufio.Scanner` whose default split function yields the text between
newlines with a single trailing carriage return stripped (`dropCR`), and
concatenates the non-empty lines, appending `"\n"` after each. -/

/-- `dropCR` of `bufio.ScanLines`: strips one trailing `'\r'`. -/
def dropCR (l : List Char) : List Char :=
  if l.getLast? = some '\r' then l.dropLast else l

/-- The token stream of `bufio.Scanner` with the `ScanLines` split
function: the text before each `'\n'` (carriage-return stripped), plus a
final token for a non-empty remainder at end of input.  The first
argument accumulates the current line in reverse. -/
def goScanLinesAux : List Char → List Char → List (List Char)
  | cur, [] => if cur = [] then [] else [dropCR cur.reverse]
  | cur, c :: rest =>
    if c = '\n' then dropCR cur.reverse :: goScanLinesAux [] rest
    else goScanLinesAux (c :: cur) rest

/-- The lines `readFile`'s scanner produces for a file's contents. -/
def goScanLines (cs : List Char) : List (List Char) :=
  goScanLinesAux [] cs

/-- `readFile`: iterates over the scanner's lines, skips lines of length
zero, and appends every other line followed by `"\n"` to the accumulated
content. -/
def readFile (cs : List Char) : List Char :=
  (goScanLines cs).foldl
    (fun content line => if line.length = 0 then content else content ++ line ++ ['\n']) []

/-! ## The directory walk (`ScanSecretsInDir`, `ScanSecretsInDirStream`)

The walk is modelled over the sequence of directory entries that
`filepath.WalkDir` presents to the callback, in traversal order.  The
`core` predicates (`IsSkippableDir`, `IsSkippableFileExtension`) and the
outcomes of `Checkpoint`, `f.Info()` and the walk's own per-entry error
are not part of the provided sources, so each entry carries their results
as fields.  Returning `filepath.SkipDir` for a skippable directory prunes
its subtree; in this flat model the pruned descendants simply do not
appear in the entry list, and the skip itself contributes no findings. -/

/-- The option snapshot fields the walk reads
(`session.Options` of the `core` package). -/
structure ScanOptions where
  maximumFileSize : Nat
  maxSecrets : Nat
  multipleMatch : Bool
  maxMultiMatch : Nat
  deriving Repr, DecidableEq

/-- One finding (`output.SecretFound`), identified by the rule that fired,
the file it fired on and the layer being scanned. -/
structure SecretFound where
  ruleID : Nat
  fileID : Nat
  layerID : Nat
  deriving Repr, DecidableEq

/-- One directory entry presented to the walk callback, with the outcomes
of the externally-defined predicates it consults. -/
structure DirEntry where
  fileID : Nat
  walkError : Bool
  checkpointCancel : Bool
  isDir : Bool
  skippableDir : Bool
  isRegular : Bool
  infoError : Bool
  size : Nat
  skippableExtension : Bool
  readError : Bool
  contentRules : List Nat
  metaRules : List Nat
  deriving Repr, DecidableEq

/-- Number of matches already recorded for a rule in the
`matchedRuleSet` map (`map[uint]uint`, absent key reads as `0`). -/
def ruleSetCount (m : List (Nat × Nat)) (r : Nat) : Nat :=
  match m.find? (fun p => p.1 = r) with
  | some p => p.2
  | none => 0

/-- Increment the per-rule match count in the `matchedRuleSet` map. -/
def ruleSetIncr (m : List (Nat × Nat)) (r : Nat) : List (Nat × Nat) :=
  match m with
  | [] => [(r, 1)]
  | p :: rest => if p.1 = r then (r, p.2 + 1) :: rest else p :: ruleSetIncr rest r

/-- Modelled from the spec: the body of
`signature.MatchPatternSignatures` (the `signature` package is not among
the provided sources).  For each rule whose signature matches the file
contents, in match order: the rule is subject to the per-`(file, rule)`
multiplicity cap recorded in `matchedRuleSet` (one match with
`multi-match` off, `max_multi_match` matches with it on); every emitted
finding increments the shared `num_secrets`; once `num_secrets` reaches
`max_secrets` nothing further is emitted. -/
def matchPatternAux (opts : ScanOptions) (fileID layerID : Nat) :
    List Nat → Nat → List (Nat × Nat) → List SecretFound × Nat × List (Nat × Nat)
  | [], numSecrets, matchedRuleSet => ([], numSecrets, matchedRuleSet)
  | r :: rs, numSecrets, matchedRuleSet =>
    if opts.maxSecrets ≤ numSecrets then ([], numSecrets, matchedRuleSet)
    else if ruleSetCount matchedRuleSet r <
        (if opts.multipleMatch then opts.maxMultiMatch else 1) then
      let rest := matchPatternAux opts fileID layerID rs (numSecrets + 1)
        (ruleSetIncr matchedRuleSet r)
      (⟨r, fileID, layerID⟩ :: rest.1, rest.2)
    else matchPatternAux opts fileID layerID rs numSecrets matchedRuleSet

/-- Modelled from the spec: `signature.MatchPatternSignatures`.  Returns
its findings together with the updated counter and rule map, and — per the
spec — a sentinel error when the shared counter has reached
`max_secrets`. -/
def MatchPatternSignatures (opts : ScanOptions) (fileID layerID : Nat)
    (rules : List Nat) (numSecrets : Nat) (matchedRuleSet : List (Nat × Nat)) :
    List SecretFound × Nat × List (Nat × Nat) × Option GoError :=
  let res := matchPatternAux opts fileID layerID rules numSecrets matchedRuleSet
  (res.1, res.2.1, res.2.2,
    if opts.maxSecrets ≤ res.2.1 then some .maxSecretsExceeded else none)

/-- Modelled from the spec: `signature.MatchSimpleSignatures` (metadata
rules).  It consults no rule map, returns no error, and its findings count
toward `num_secrets` and the global cap identically to content
findings. -/
def MatchSimpleSignatures (opts : ScanOptions) (fileID layerID : Nat) :
    List Nat → Nat → List SecretFound × Nat
  | [], numSecrets => ([], numSecrets)
  | r :: rs, numSecrets =>
    if opts.maxSecrets ≤ numSecrets then ([], numSecrets)
    else
      let rest := MatchSimpleSignatures opts fileID layerID rs (numSecrets + 1)
      (⟨r, fileID, layerID⟩ :: rest.1, rest.2)

/-- `scanFile`: reads the file and runs the content matcher.  A read
error or a matcher error makes it return `nil` findings together with the
error (so content findings of a file in which the matcher reports the
sentinel are dropped), while the counter and rule-map updates persist
through the shared pointers. -/
def scanFile (opts : ScanOptions) (layerID : Nat) (e : DirEntry)
    (numSecrets : Nat) (matchedRuleSet : List (Nat × Nat)) :
    Option (List SecretFound) × Nat × List (Nat × Nat) :=
  if e.readError then (none, numSecrets, matchedRuleSet)
  else
    let res := MatchPatternSignatures opts e.fileID layerID e.contentRules numSecrets matchedRuleSet
    match res.2.2.2 with
    | some _ => (none, res.2.1, res.2.2.1)
    | none => (some res.1, res.2.1, res.2.2.1)

/-- The mutable state of one walk: the findings accumulated so far
(`secretsFound` for the batch surface, the sent channel contents for the
stream surface), the shared `numSecrets` counter and the shared
`matchedRuleSet` map. -/
structure WalkState where
  secretsFound : List SecretFound
  numSecrets : Nat
  matchedRuleSet : List (Nat × Nat)
  deriving Repr, DecidableEq

/-- The initial state of a walk: no findings, counter `0`, empty map. -/
def initialWalkState : WalkState := ⟨[], 0, []⟩

/-- The callback body of `ScanSecretsInDir`, for one directory entry:
per-entry walk errors and `Checkpoint` cancellation abort the walk;
directories, non-regular files, files whose info cannot be read, oversized
files and blacklisted extensions are skipped; otherwise the content
matcher runs (its error only logged, its findings appended when there is
no error), then the metadata matcher runs and its findings are appended
unconditionally; finally the `maxSecretsExceeded` sentinel is returned
once `numSecrets` has reached `max_secrets`. -/
def scanDirEntry (opts : ScanOptions) (layerID : Nat) (st : WalkState) (e : DirEntry) :
    WalkState × Option GoError :=
  if e.walkError then (st, some .walkEntryError)
  else if e.checkpointCancel then (st, some .checkpointCancelled)
  else if e.isDir then (st, none)
  else if ¬ e.isRegular then (st, none)
  else if e.infoError then (st, none)
  else if opts.maximumFileSize * 1024 < e.size ∨ e.skippableExtension then (st, none)
  else
    let scanned := scanFile opts layerID e st.numSecrets st.matchedRuleSet
    let found1 := match scanned.1 with
      | some secrets => st.secretsFound ++ secrets
      | none => st.secretsFound
    let simple := MatchSimpleSignatures opts e.fileID layerID e.metaRules scanned.2.1
    let st' : WalkState := ⟨found1 ++ simple.1, simple.2, scanned.2.2⟩
    if opts.maxSecrets ≤ st'.numSecrets then (st', some .maxSecretsExceeded)
    else (st', none)

/-- `filepath.WalkDir` driving the batch callback: entries are processed
in order until the callback returns an error. -/
def filepathWalkDir (opts : ScanOptions) (layerID : Nat) :
    List DirEntry → WalkState → WalkState × Option GoError
  | [], st => (st, none)
  | e :: rest, st =>
    match scanDirEntry opts layerID st e with
    | (st', none) => filepathWalkDir opts layerID rest st'
    | (st', some err) => (st', some err)

/-- `ScanSecretsInDir`: runs the walk; a non-`nil` walk error (cap
sentinel or otherwise) is only logged, and the findings accumulated so far
are returned with a `nil` error. -/
def ScanSecretsInDir (opts : ScanOptions) (layerID : Nat) (entries : List DirEntry) :
    List SecretFound × Option GoError :=
  let res := filepathWalkDir opts layerID entries initialWalkState
  match res.2 with
  | some _ => (res.1.secretsFound, none)
  | none => (res.1.secretsFound, none)

/-- The callback body of `ScanSecretsInDirStream`, for one directory
entry: identical branching to the batch callback, except that findings are
sent on the channel one at a time (`res <- secrets[i]`) instead of being
appended as a slice. -/
def scanDirEntryStream (opts : ScanOptions) (layerID : Nat) (st : WalkState) (e : DirEntry) :
    WalkState × Option GoError :=
  if e.walkError then (st, some .walkEntryError)
  else if e.checkpointCancel then (st, some .checkpointCancelled)
  else if e.isDir then (st, none)
  else if ¬ e.isRegular then (st, none)
  else if e.infoError then (st, none)
  else if opts.maximumFileSize * 1024 < e.size ∨ e.skippableExtension then (st, none)
  else
    let scanned := scanFile opts layerID e st.numSecrets st.matchedRuleSet
    let sent1 := match scanned.1 with
      | some secrets => secrets.foldl (fun acc s => acc ++ [s]) st.secretsFound
      | none => st.secretsFound
    let simple := MatchSimpleSignatures opts e.fileID layerID e.metaRules scanned.2.1
    let sent2 := simple.1.foldl (fun acc s => acc ++ [s]) sent1
    let st' : WalkState := ⟨sent2, simple.2, scanned.2.2⟩
    if opts.maxSecrets ≤ st'.numSecrets then (st', some .maxSecretsExceeded)
    else (st', none)

/-- `filepath.WalkDir` driving the stream callback. -/
def filepathWalkDirStream (opts : ScanOptions) (layerID : Nat) :
    List DirEntry → WalkState → WalkState × Option GoError
  | [], st => (st, none)
  | e :: rest, st =>
    match scanDirEntryStream opts layerID st e with
    | (st', none) => filepathWalkDirStream opts layerID rest st'
    | (st', some err) => (st', some err)

/-- `ScanSecretsInDirStream`: creates the channel, walks in a goroutine
(walk errors only logged, the channel closed on exit) and returns the
channel with a `nil` error unconditionally.  The first component is the
full sequence of findings sent on the channel before it is closed. -/
def ScanSecretsInDirStream (opts : ScanOptions) (layerID : Nat) (entries : List DirEntry) :
    List SecretFound × Option GoError :=
  let res := filepathWalkDirStream opts layerID entries initialWalkState
  ((res.1.secretsFound, none))

/-! ## Image layers (`processImageLayers`, `processImageLayersStream`) -/

/-- One layer of an image scan: whether `core.CreateRecursiveDir` and
`extractTarFile` succeed for it, and the directory entries the walk of its
target directory visits (the contents of the target directory at scan
time, which for a failed extraction are the partially extracted files). -/
structure LayerScanInput where
  layerID : Nat
  createDirOk : Bool
  extractOk : Bool
  entries : List DirEntry
  deriving Repr, DecidableEq

/-- `processImageLayers` (batch): for each layer in manifest order, a
directory-creation failure aborts the scan returning the findings so far
with the error; a tar-extraction failure is only logged and the layer's
target directory is scanned anyway; each layer's walk runs
`ScanSecretsInDir` (fresh counter and rule map); its findings are counted
into the accumulated `imageScan.numSecrets` and appended; once the
accumulated count reaches `max_secrets` the scan returns with a `nil`
error. -/
def processImageLayers (opts : ScanOptions) :
    List LayerScanInput → List SecretFound → Nat → List SecretFound × Nat × Option GoError
  | [], acc, numSecrets => (acc, numSecrets, none)
  | l :: rest, acc, numSecrets =>
    if ¬ l.createDirOk then (acc, numSecrets, some .createDirError)
    else
      let scanned := ScanSecretsInDir opts l.layerID l.entries
      let numSecrets' := numSecrets + scanned.1.length
      let acc' := acc ++ scanned.1
      if opts.maxSecrets ≤ numSecrets' then (acc', numSecrets', none)
      else processImageLayers opts rest acc' numSecrets'

/-- `processImageLayersStream`: for each layer in manifest order, a
directory-creation failure or a tar-extraction failure makes it `continue`
to the next layer (the layer is not scanned); otherwise the layer's walk
runs `ScanSecretsInDir`, its findings are counted into the accumulated
`imageScan.numSecrets` and sent on the channel one at a time; once the
accumulated count reaches `max_secrets` the loop breaks.  The first
component is the full sequence sent on the channel before it closes. -/
def processImageLayersStream (opts : ScanOptions) :
    List LayerScanInput → List SecretFound → Nat → List SecretFound × Nat
  | [], sent, numSecrets => (sent, numSecrets)
  | l :: rest, sent, numSecrets =>
    if ¬ l.createDirOk then processImageLayersStream opts rest sent numSecrets
    else if ¬ l.extractOk then processImageLayersStream opts rest sent numSecrets
    else
      let scanned := ScanSecretsInDir opts l.layerID l.entries
      let numSecrets' := numSecrets + scanned.1.length
      let sent' := scanned.1.foldl (fun acc s => acc ++ [s]) sent
      if opts.maxSecrets ≤ numSecrets' then (sent', numSecrets')
      else processImageLayersStream opts rest sent' numSecrets'

/-! ## Helper lemmas -/

theorem foldl_push_eq_append {α : Type} (l : List α) :
    ∀ init : List α, l.foldl (fun acc s => acc ++ [s]) init = init ++ l := by
  induction l with
  | nil => intro init; simp
  | cons x xs ih => intro init; simp [ih]

theorem matchPatternAux_count (opts : ScanOptions) (fid lid : Nat) (rules : List Nat) :
    ∀ (n : Nat) (mrs : List (Nat × Nat)),
      (matchPatternAux opts fid lid rules n mrs).2.1 =
        n + (matchPatternAux opts fid lid rules n mrs).1.length := by
  induction rules with
  | nil => intro n mrs; simp [matchPatternAux]
  | cons r rs ih =>
    intro n mrs
    simp only [matchPatternAux]
    by_cases hc : opts.maxSecrets ≤ n
    · simp [hc]
    · simp only [if_neg hc]
      by_cases hm : ruleSetCount mrs r < (if opts.multipleMatch then opts.maxMultiMatch else 1)
      · simp only [if_pos hm, List.length_cons]
        rw [ih (n + 1) (ruleSetIncr mrs r)]
        omega
      · simp only [if_neg hm]
        exact ih n mrs

theorem matchPatternAux_le (opts : ScanOptions) (fid lid : Nat) (rules : List Nat) :
    ∀ (n : Nat) (mrs : List (Nat × Nat)), n ≤ opts.maxSecrets →
      (matchPatternAux opts fid lid rules n mrs).2.1 ≤ opts.maxSecrets := by
  induction rules with
  | nil => intro n mrs h; simpa [matchPatternAux] using h
  | cons r rs ih =>
    intro n mrs h
    simp only [matchPatternAux]
    by_cases hc : opts.maxSecrets ≤ n
    · simpa [hc] using h
    · simp only [if_neg hc]
      by_cases hm : ruleSetCount mrs r < (if opts.multipleMatch then opts.maxMultiMatch else 1)
      · simp only [if_pos hm]
        exact ih (n + 1) (ruleSetIncr mrs r) (by omega)
      · simp only [if_neg hm]
        exact ih n mrs h

theorem matchSimple_count (opts : ScanOptions) (fid lid : Nat) (rules : List Nat) :
    ∀ n : Nat, (MatchSimpleSignatures opts fid lid rules n).2 =
      n + (MatchSimpleSignatures opts fid lid rules n).1.length := by
  induction rules with
  | nil => intro n; simp [MatchSimpleSignatures]
  | cons r rs ih =>
    intro n
    simp only [MatchSimpleSignatures]
    by_cases hc : opts.maxSecrets ≤ n
    · simp [hc]
    · simp only [if_neg hc, List.length_cons]
      rw [ih (n + 1)]
      omega

theorem matchSimple_le (opts : ScanOptions) (fid lid : Nat) (rules : List Nat) :
    ∀ n : Nat, n ≤ opts.maxSecrets →
      (MatchSimpleSignatures opts fid lid rules n).2 ≤ opts.maxSecrets := by
  induction rules with
  | nil => intro n h; simpa [MatchSimpleSignatures] using h
  | cons r rs ih =>
    intro n h
    simp only [MatchSimpleSignatures]
    by_cases hc : opts.maxSecrets ≤ n
    · simpa [hc] using h
    · simp only [if_neg hc]
      exact ih (n + 1) (by omega)

theorem scanFile_counter (opts : ScanOptions) (lid : Nat) (e : DirEntry)
    (n : Nat) (mrs : List (Nat × Nat)) :
    n + (match (scanFile opts lid e n mrs).1 with
          | some s => s.length
          | none => 0) ≤ (scanFile opts lid e n mrs).2.1 := by
  by_cases hr : e.readError
  · simp [scanFile, hr]
  · simp only [scanFile, if_neg hr, MatchPatternSignatures]
    have h := matchPatternAux_count opts e.fileID lid e.contentRules n mrs
    by_cases hc : opts.maxSecrets ≤ (matchPatternAux opts e.fileID lid e.contentRules n mrs).2.1
    · simp only [if_pos hc]
      omega
    · simp only [if_neg hc]
      omega

theorem scanFile_le (opts : ScanOptions) (lid : Nat) (e : DirEntry)
    (n : Nat) (mrs : List (Nat × Nat)) (h : n ≤ opts.maxSecrets) :
    (scanFile opts lid e n mrs).2.1 ≤ opts.maxSecrets := by
  by_cases hr : e.readError
  · simpa [scanFile, hr] using h
  · simp only [scanFile, if_neg hr, MatchPatternSignatures]
    have hle := matchPatternAux_le opts e.fileID lid e.contentRules n mrs h
    by_cases hc : opts.maxSecrets ≤ (matchPatternAux opts e.fileID lid e.contentRules n mrs).2.1
    · simpa [hc] using hle
    · simpa [hc] using hle

theorem scanDirEntry_inv (opts : ScanOptions) (lid : Nat) (st : WalkState) (e : DirEntry)
    (h1 : st.secretsFound.length ≤ st.numSecrets) (h2 : st.numSecrets ≤ opts.maxSecrets) :
    ((scanDirEntry opts lid st e).1).secretsFound.length ≤
        ((scanDirEntry opts lid st e).1).numSecrets ∧
      ((scanDirEntry opts lid st e).1).numSecrets ≤ opts.maxSecrets := by
  simp only [scanDirEntry]
  by_cases hwe : e.walkError
  · simp [hwe]; omega
  · simp only [if_neg hwe]
    by_cases hcc : e.checkpointCancel
    · simp [hcc]; omega
    · simp only [if_neg hcc]
      by_cases hd : e.isDir
      · simp [hd]; omega
      · simp only [if_neg hd]
        by_cases hreg : ¬ e.isRegular
        · simp [hreg]; omega
        · simp only [if_neg hreg]
          by_cases hinfo : e.infoError
          · simp [hinfo]; omega
          · simp only [if_neg hinfo]
            by_cases hsz : opts.maximumFileSize * 1024 < e.size ∨ e.skippableExtension
            · simp [hsz]; omega
            · simp only [if_neg hsz]
              have hcnt := scanFile_counter opts lid e st.numSecrets st.matchedRuleSet
              have hcap := scanFile_le opts lid e st.numSecrets st.matchedRuleSet h2
              have hsc := matchSimple_count opts e.fileID lid e.metaRules
                (scanFile opts lid e st.numSecrets st.matchedRuleSet).2.1
              have hsl := matchSimple_le opts e.fileID lid e.metaRules
                (scanFile opts lid e st.numSecrets st.matchedRuleSet).2.1 hcap
              by_cases hstop : opts.maxSecrets ≤
                  (MatchSimpleSignatures opts e.fileID lid e.metaRules
                    (scanFile opts lid e st.numSecrets st.matchedRuleSet).2.1).2
              · simp only [if_pos hstop]
                cases hsome : (scanFile opts lid e st.numSecrets st.matchedRuleSet).1 with
                | some s => simp only [hsome] at hcnt ⊢; simp; omega
                | none => simp only [hsome] at hcnt ⊢; simp; omega
              · simp only [if_neg hstop]
                cases hsome : (scanFile opts lid e st.numSecrets st.matchedRuleSet).1 with
                | some s => simp only [hsome] at hcnt ⊢; simp; omega
                | none => simp only [hsome] at hcnt ⊢; simp; omega

theorem filepathWalkDir_inv (opts : ScanOptions) (lid : Nat) (entries : List DirEntry) :
    ∀ st : WalkState,
      st.secretsFound.length ≤ st.numSecrets → st.numSecrets ≤ opts.maxSecrets →
      ((filepathWalkDir opts lid entries st).1).secretsFound.length ≤
          ((filepathWalkDir opts lid entries st).1).numSecrets ∧
        ((filepathWalkDir opts lid entries st).1).numSecrets ≤ opts.maxSecrets := by
  induction entries with
  | nil => intro st h1 h2; exact ⟨h1, h2⟩
  | cons e rest ih =>
    intro st h1 h2
    have hinv := scanDirEntry_inv opts lid st e h1 h2
    simp only [filepathWalkDir]
    cases hstep : scanDirEntry opts lid st e with
    | mk st' err =>
      rw [hstep] at hinv
      cases err with
      | none => exact ih st' hinv.1 hinv.2
      | some ge => exact hinv

theorem ScanSecretsInDir_eq (opts : ScanOptions) (lid : Nat) (entries : List DirEntry) :
    ScanSecretsInDir opts lid entries =
      ((filepathWalkDir opts lid entries initialWalkState).1.secretsFound, none) := by
  simp only [ScanSecretsInDir]
  cases (filepathWalkDir opts lid entries initialWalkState).2 <;> rfl

theorem scanSecretsInDir_length_le (opts : ScanOptions) (lid : Nat) (entries : List DirEntry) :
    ((ScanSecretsInDir opts lid entries).1).length ≤ opts.maxSecrets := by
  rw [ScanSecretsInDir_eq]
  have h := filepathWalkDir_inv opts lid entries initialWalkState (by simp [initialWalkState])
    (by simp [initialWalkState])
  dsimp only
  omega

theorem processImageLayers_length (opts : ScanOptions) (layers : List LayerScanInput) :
    ∀ (acc : List SecretFound) (ns : Nat),
      ((processImageLayers opts layers acc ns).1).length ≤
        acc.length + (opts.maxSecrets - ns - 1) + opts.maxSecrets := by
  induction layers with
  | nil =>
    intro acc ns
    simp only [processImageLayers]
    omega
  | cons l rest ih =>
    intro acc ns
    by_cases hcd : l.createDirOk
    · have hw := scanSecretsInDir_length_le opts l.layerID l.entries
      by_cases hcap : opts.maxSecrets ≤ ns + (ScanSecretsInDir opts l.layerID l.entries).1.length
      · simp [processImageLayers, hcd, hcap]
        omega
      · have hih := ih (acc ++ (ScanSecretsInDir opts l.layerID l.entries).1)
          (ns + (ScanSecretsInDir opts l.layerID l.entries).1.length)
        simp only [List.length_append] at hih
        simp [processImageLayers, hcd, hcap]
        omega
    · simp only [Bool.not_eq_true] at hcd
      simp [processImageLayers, hcd]
      omega

theorem processImageLayersStream_length (opts : ScanOptions) (layers : List LayerScanInput) :
    ∀ (sent : List SecretFound) (ns : Nat),
      ((processImageLayersStream opts layers sent ns).1).length ≤
        sent.length + (opts.maxSecrets - ns - 1) + opts.maxSecrets := by
  induction layers with
  | nil =>
    intro sent ns
    simp only [processImageLayersStream]
    omega
  | cons l rest ih =>
    intro sent ns
    by_cases hcd : l.createDirOk
    · by_cases hex : l.extractOk
      · have hw := scanSecretsInDir_length_le opts l.layerID l.entries
        by_cases hcap : opts.maxSecrets ≤ ns + (ScanSecretsInDir opts l.layerID l.entries).1.length
        · simp [processImageLayersStream, hcd, hex, hcap, foldl_push_eq_append]
          omega
        · have hih := ih (sent ++ (ScanSecretsInDir opts l.layerID l.entries).1)
            (ns + (ScanSecretsInDir opts l.layerID l.entries).1.length)
          simp only [List.length_append] at hih
          simp [processImageLayersStream, hcd, hex, hcap, foldl_push_eq_append]
          omega
      · simp only [Bool.not_eq_true] at hex
        have hih := ih sent ns
        simp [processImageLayersStream, hcd, hex]
        omega
    · simp only [Bool.not_eq_true] at hcd
      have hih := ih sent ns
      simp [processImageLayersStream, hcd]
      omega

theorem scanDirEntryStream_eq (opts : ScanOptions) (lid : Nat) (st : WalkState) (e : DirEntry) :
    scanDirEntryStream opts lid st e = scanDirEntry opts lid st e := by
  simp only [scanDirEntryStream, scanDirEntry, foldl_push_eq_append]

theorem filepathWalkDirStream_eq (opts : ScanOptions) (lid : Nat) :
    ∀ (entries : List DirEntry) (st : WalkState),
      filepathWalkDirStream opts lid entries st = filepathWalkDir opts lid entries st := by
  intro entries
  induction entries with
  | nil => intro st; rfl
  | cons e rest ih =>
    intro st
    simp only [filepathWalkDirStream, filepathWalkDir, scanDirEntryStream_eq]
    cases hstep : scanDirEntry opts lid st e with
    | mk st' err =>
      cases err with
      | none => exact ih st'
      | some g => rfl

theorem stream_eq_batch_dir (opts : ScanOptions) (lid : Nat) (entries : List DirEntry) :
    ScanSecretsInDirStream opts lid entries = ScanSecretsInDir opts lid entries := by
  rw [ScanSecretsInDir_eq]
  simp only [ScanSecretsInDirStream, filepathWalkDirStream_eq]

theorem filepathWalkDir_append (opts : ScanOptions) (lid : Nat) :
    ∀ (a b : List DirEntry) (st : WalkState),
      filepathWalkDir opts lid (a ++ b) st =
        match filepathWalkDir opts lid a st with
        | (st', none) => filepathWalkDir opts lid b st'
        | (st', some e) => (st', some e) := by
  intro a
  induction a with
  | nil => intro b st; rfl
  | cons e rest ih =>
    intro b st
    simp only [List.cons_append, filepathWalkDir]
    cases hstep : scanDirEntry opts lid st e with
    | mk st' err =>
      cases err with
      | none => exact ih b st'
      | some g => rfl

theorem processImageLayersStream_eq_of_ok (opts : ScanOptions) :
    ∀ (layers : List LayerScanInput) (sent : List SecretFound) (ns : Nat),
      (∀ l ∈ layers, l.createDirOk = true ∧ l.extractOk = true) →
      processImageLayersStream opts layers sent ns =
        ((processImageLayers opts layers sent ns).1,
          (processImageLayers opts layers sent ns).2.1) := by
  intro layers
  induction layers with
  | nil => intro sent ns _h; rfl
  | cons l rest ih =>
    intro sent ns h
    have hl := h l (by simp)
    have hrest : ∀ x ∈ rest, x.createDirOk = true ∧ x.extractOk = true :=
      fun x hx => h x (by simp [hx])
    by_cases hcap : opts.maxSecrets ≤ ns + (ScanSecretsInDir opts l.layerID l.entries).1.length
    · simp [processImageLayersStream, processImageLayers, hl.1, hl.2, hcap,
        foldl_push_eq_append]
    · simp [processImageLayersStream, processImageLayers, hl.1, hl.2, hcap,
        foldl_push_eq_append, ih _ _ hrest]

theorem cleanAbsAux_append (a : List PathSeg) :
    ∀ (stack b : List PathSeg), cleanAbsAux stack (a ++ b) = cleanAbsAux (cleanAbsAux stack a) b := by
  induction a with
  | nil => intro stack b; rfl
  | cons s rest ih =>
    intro stack b
    cases s <;> simp only [List.cons_append, cleanAbsAux] <;> apply ih

theorem cleanAbsAux_names (segs : List PathSeg) :
    ∀ stack : List PathSeg, (∀ s ∈ stack, ∃ n, s = PathSeg.name n) →
      ∀ s ∈ cleanAbsAux stack segs, ∃ n, s = PathSeg.name n := by
  induction segs with
  | nil => intro stack h; simpa [cleanAbsAux] using h
  | cons seg rest ih =>
    intro stack h
    cases seg with
    | empty => exact ih stack h
    | dot => exact ih stack h
    | dotdot =>
      refine ih stack.dropLast (fun s hs => h s ?_)
      exact List.dropLast_subset stack hs
    | name n =>
      refine ih (stack ++ [PathSeg.name n]) (fun s hs => ?_)
      rcases List.mem_append.mp hs with h1 | h2
      · exact h s h1
      · exact ⟨n, by simpa using h2⟩

theorem cleanAbsAux_all_names :
    ∀ segs : List PathSeg, (∀ s ∈ segs, ∃ n, s = PathSeg.name n) →
      ∀ stack : List PathSeg, cleanAbsAux stack segs = stack ++ segs := by
  intro segs
  induction segs with
  | nil => intro _h stack; simp [cleanAbsAux]
  | cons seg rest ih =>
    intro h stack
    obtain ⟨n, hn⟩ := h seg (by simp)
    subst hn
    have hstep : cleanAbsAux stack (PathSeg.name n :: rest) =
        cleanAbsAux (stack ++ [PathSeg.name n]) rest := rfl
    rw [hstep, ih (fun s hs => h s (by simp [hs])) (stack ++ [PathSeg.name n])]
    simp

theorem mem_dropCR {x : Char} {l : List Char} (h : x ∈ dropCR l) : x ∈ l := by
  unfold dropCR at h
  split at h
  · exact List.dropLast_subset l h
  · exact h

theorem goScanLinesAux_no_newline :
    ∀ (rest cur : List Char), '\n' ∉ cur → ∀ l ∈ goScanLinesAux cur rest, '\n' ∉ l := by
  intro rest
  induction rest with
  | nil =>
    intro cur h l hl
    simp only [goScanLinesAux] at hl
    by_cases hc : cur = []
    · simp [hc] at hl
    · simp only [if_neg hc, List.mem_singleton] at hl
      subst hl
      intro hmem
      exact h (List.mem_reverse.mp (mem_dropCR hmem))
  | cons c r ih =>
    intro cur h l hl
    by_cases hc : c = '\n'
    · subst hc
      simp only [goScanLinesAux, if_pos rfl] at hl
      rcases List.mem_cons.mp hl with h1 | h2
      · subst h1
        intro hmem
        exact h (List.mem_reverse.mp (mem_dropCR hmem))
      · exact ih [] (by simp) l h2
    · simp only [goScanLinesAux, if_neg hc] at hl
      refine ih (c :: cur) ?_ l hl
      intro hmem
      rcases List.mem_cons.mp hmem with h1 | h2
      · exact hc h1.symm
      · exact h h2

theorem goScanLinesAux_cons_nl (cur rest : List Char) :
    goScanLinesAux cur ('\n' :: rest) = dropCR cur.reverse :: goScanLinesAux [] rest := by
  simp [goScanLinesAux]

theorem goScanLinesAux_cons_ne (cur : List Char) (c : Char) (rest : List Char)
    (hc : ¬ c = '\n') : goScanLinesAux cur (c :: rest) = goScanLinesAux (c :: cur) rest := by
  simp [goScanLinesAux, hc]

theorem goScanLinesAux_length_of_last_nl :
    ∀ (rest cur : List Char), rest.getLast? = some '\n' →
      (goScanLinesAux cur rest).length = rest.count '\n' := by
  intro rest
  induction rest with
  | nil => intro cur h; simp at h
  | cons c r ih =>
    intro cur h
    by_cases hc : c = '\n'
    · subst hc
      cases r with
      | nil => simp [goScanLinesAux, List.count_cons]
      | cons a as =>
        have hlast : (a :: as).getLast? = some '\n' := by
          rwa [List.getLast?_cons_cons] at h
        rw [goScanLinesAux_cons_nl, List.length_cons, ih [] hlast]
        simp [List.count_cons]
    · have hr : r ≠ [] := by
        rintro rfl
        simp only [List.getLast?_singleton, Option.some_inj] at h
        exact hc h
      have hlast : r.getLast? = some '\n' := by
        cases r with
        | nil => exact absurd rfl hr
        | cons a as => rwa [List.getLast?_cons_cons] at h
      rw [goScanLinesAux_cons_ne cur c r hc, ih (c :: cur) hlast]
      simp [List.count_cons, hc]

theorem count_flatten_newline :
    ∀ ts : List (List Char), (∀ l ∈ ts, '\n' ∉ l) →
      ((ts.map (fun l => l ++ ['\n'])).flatten).count '\n' = ts.length := by
  intro ts
  induction ts with
  | nil => intro _h; simp
  | cons t rest ih =>
    intro h
    have ht : t.count '\n' = 0 := List.count_eq_zero.mpr (h t (by simp))
    simp only [List.map_cons, List.flatten_cons, List.count_append, List.length_cons,
      ih (fun l hl => h l (by simp [hl]))]
    simp [ht]
    omega

theorem filter_length_lt :
    ∀ ts : List (List Char), [] ∈ ts →
      (ts.filter (fun l => l ≠ [])).length < ts.length := by
  intro ts
  induction ts with
  | nil => intro h; simp at h
  | cons t rest ih =>
    intro h
    by_cases ht : t = []
    · subst ht
      have h1 : (([] : List Char) :: rest).filter (fun l => l ≠ []) =
          rest.filter (fun l => l ≠ []) := by simp
      have hle : (rest.filter (fun l => l ≠ [])).length ≤ rest.length :=
        List.length_filter_le _ rest
      rw [h1, List.length_cons]
      omega
    · have hmem : [] ∈ rest := by
        rcases List.mem_cons.mp h with h1 | h2
        · exact absurd h1.symm ht
        · exact h2
      have h1 : (t :: rest).filter (fun l => l ≠ []) =
          t :: rest.filter (fun l => l ≠ []) := by simp [List.filter_cons, ht]
      have := ih hmem
      rw [h1, List.length_cons, List.length_cons]
      omega

theorem foldl_content_eq :
    ∀ (ts : List (List Char)) (init : List Char),
      ts.foldl (fun content line => if line.length = 0 then content else content ++ line ++ ['\n'])
          init =
        init ++ ((ts.filter (fun l => l ≠ [])).map (fun l => l ++ ['\n'])).flatten := by
  intro ts
  induction ts with
  | nil => intro init; simp
  | cons t rest ih =>
    intro init
    rw [List.foldl_cons]
    by_cases ht : t = []
    · have hlen : t.length = 0 := by simp [ht]
      have h1 : (t :: rest).filter (fun l => l ≠ []) = rest.filter (fun l => l ≠ []) := by
        simp [List.filter_cons, ht]
      rw [if_pos hlen, ih, h1]
    · have hlen : ¬ t.length = 0 := by simpa [List.length_eq_zero] using ht
      have h1 : (t :: rest).filter (fun l => l ≠ []) =
          t :: rest.filter (fun l => l ≠ []) := by simp [List.filter_cons, ht]
      rw [if_neg hlen, ih, h1, List.map_cons, List.flatten_cons]
      simp [List.append_assoc]

theorem readFile_eq_flatten (cs : List Char) :
    readFile cs =
      (((goScanLines cs).filter (fun l => l ≠ [])).map (fun l => l ++ ['\n'])).flatten := by
  unfold readFile
  simpa using foldl_content_eq (goScanLines cs) []

theorem flatten_map_newline_last :
    ∀ ts : List (List Char),
      (ts.map (fun l => l ++ ['\n'])).flatten = [] ∨
        ((ts.map (fun l => l ++ ['\n'])).flatten).getLast? = some '\n' := by
  intro ts
  induction ts with
  | nil => left; rfl
  | cons t rest ih =>
    right
    simp only [List.map_cons, List.flatten_cons]
    rcases ih with hnil | hlast
    · rw [hnil, List.append_nil]
      exact List.getLast?_concat t
    · have hne : (rest.map (fun l => l ++ ['\n'])).flatten ≠ [] := by
        intro h0
        rw [h0] at hlast
        simp at hlast
      rw [List.getLast?_append_of_ne_nil _ hne]
      exact hlast

theorem readFile_ne_raw (cs : List Char)
    (h : [] ∈ goScanLines cs ∨ (cs ≠ [] ∧ cs.getLast? ≠ some '\n')) :
    readFile cs ≠ cs := by
  intro heq
  by_cases hlast : cs.getLast? = some '\n'
  · have hmem : [] ∈ goScanLines cs := by
      rcases h with hm | ⟨_, hne⟩
      · exact hm
      · exact absurd hlast hne
    have hnoNl : ∀ l ∈ (goScanLines cs).filter (fun l => l ≠ []), '\n' ∉ l := by
      intro l hl
      exact goScanLinesAux_no_newline cs [] (by simp) l (List.mem_of_mem_filter hl)
    have h1 : (readFile cs).count '\n' =
        ((goScanLines cs).filter (fun l => l ≠ [])).length := by
      rw [readFile_eq_flatten]
      exact count_flatten_newline _ hnoNl
    have h2 : (goScanLines cs).length = cs.count '\n' :=
      goScanLinesAux_length_of_last_nl cs [] hlast
    have h3 := filter_length_lt (goScanLines cs) hmem
    rw [heq] at h1
    omega
  · have hne : cs ≠ [] := by
      rcases h with hm | ⟨hne, _⟩
      · intro h0
        subst h0
        simp [goScanLines, goScanLinesAux] at hm
      · exact hne
    have hj := flatten_map_newline_last ((goScanLines cs).filter (fun l => l ≠ []))
    rw [← readFile_eq_flatten] at hj
    rcases hj with h0 | h1
    · rw [heq] at h0
      exact hne h0
    · rw [heq] at h1
      exact hlast h1

/-! ## Claim theorems -/

/-- Claim C1 (corrected).  Within one directory walk the number of
findings never exceeds `max_secrets`, and each layer of an image scan
starts a fresh counter while the accumulated `imageScan.numSecrets` is
compared to the cap only after a layer completes — so a whole image scan
(batch or stream) is bounded by `2 * max_secrets - 1`, not by
`max_secrets` as claimed. -/
theorem global_cap_bounds :
    (∀ (opts : ScanOptions) (lid : Nat) (entries : List DirEntry),
        ((ScanSecretsInDir opts lid entries).1).length ≤ opts.maxSecrets) ∧
      (∀ (opts : ScanOptions) (layers : List LayerScanInput),
        ((processImageLayers opts layers [] 0).1).length ≤ 2 * opts.maxSecrets - 1) ∧
      (∀ (opts : ScanOptions) (layers : List LayerScanInput),
        ((processImageLayersStream opts layers [] 0).1).length ≤ 2 * opts.maxSecrets - 1) := by
  refine ⟨scanSecretsInDir_length_le, fun opts layers => ?_, fun opts layers => ?_⟩
  · have h := processImageLayers_length opts layers [] 0
    simp only [List.length_nil] at h
    omega
  · have h := processImageLayersStream_length opts layers [] 0
    simp only [List.length_nil] at h
    omega

/-- Claim C1, counterexample: with `max_secrets = 2`, an image whose
first layer yields one finding and whose second layer yields two findings
emits three findings in total — more than `max_secrets` — because the
accumulated count is only compared to the cap after a layer completes and
the second layer's walk restarts its own counter at `0`.  Both the batch
and the stream surface exceed the cap. -/
theorem global_cap_image_counterexample :
    (⟨256, 2, false, 3⟩ : ScanOptions).maxSecrets <
        ((processImageLayers ⟨256, 2, false, 3⟩
            [⟨1, true, true, [⟨1, false, false, false, false, true, false, 0, false, false, [], [10]⟩]⟩,
             ⟨2, true, true, [⟨2, false, false, false, false, true, false, 0, false, false, [], [11, 12]⟩]⟩]
            [] 0).1).length ∧
      (⟨256, 2, false, 3⟩ : ScanOptions).maxSecrets <
        ((processImageLayersStream ⟨256, 2, false, 3⟩
            [⟨1, true, true, [⟨1, false, false, false, false, true, false, 0, false, false, [], [10]⟩]⟩,
             ⟨2, true, true, [⟨2, false, false, false, false, true, false, 0, false, false, [], [11, 12]⟩]⟩]
            [] 0).1).length := by
  decide

/-- Claim C2 (corrected).  `untar` re-roots absolute member names, and
for a cleaned target directory every path it creates for an absolute
member stays below the target; but `..`-relative member names are not
sanitised (see the counterexample), so the safety guarantee holds only
for absolute member paths. -/
theorem untar_absolute_member_stays_in_target (targetDir : List PathSeg) (hdr : TarHeaderName)
    (htarget : filepathCleanAbs targetDir = targetDir) (habs : hdr.isAbsolute = true) :
    targetDir <+: untarFileDest targetDir hdr ∧
      ∀ d, untarDirDest targetDir hdr = some d → targetDir <+: d := by
  have hnames : ∀ s ∈ filepathCleanAbs hdr.segments, ∃ n, s = PathSeg.name n :=
    cleanAbsAux_names hdr.segments [] (by simp)
  have hbase : ∀ tail : List PathSeg, (∀ s ∈ tail, ∃ n, s = PathSeg.name n) →
      targetDir <+: filepathCleanAbs (targetDir ++ tail) := by
    intro tail htail
    unfold filepathCleanAbs
    rw [cleanAbsAux_append]
    have ht : cleanAbsAux [] targetDir = targetDir := htarget
    rw [ht, cleanAbsAux_all_names tail htail targetDir]
    exact ⟨tail, rfl⟩
  constructor
  · unfold untarFileDest
    simp only [habs, if_true]
    exact hbase _ hnames
  · intro d hd
    unfold untarDirDest at hd
    simp only [habs, if_true] at hd
    by_cases hlen : 2 ≤ (filepathCleanAbs hdr.segments).length
    · rw [if_pos hlen] at hd
      have hd' : filepathCleanAbs
          (targetDir ++ (filepathCleanAbs hdr.segments).dropLast) = d :=
        Option.some_injective _ hd
      rw [← hd']
      refine hbase _ (fun s hs => hnames s ?_)
      exact List.dropLast_subset _ hs
    · rw [if_neg hlen] at hd
      exact absurd hd (by simp)

/-- Claim C2, witness for the amended safety theorem: a cleaned
two-segment target directory and an absolute member name containing a
`..` segment still extract below the target. -/
theorem untar_absolute_member_witness :
    filepathCleanAbs [PathSeg.name 0, PathSeg.name 1] = [PathSeg.name 0, PathSeg.name 1] ∧
      [PathSeg.name 0, PathSeg.name 1] <+:
        untarFileDest [PathSeg.name 0, PathSeg.name 1]
          ⟨true, [PathSeg.name 2, PathSeg.dotdot, PathSeg.name 3]⟩ :=
  ⟨by decide,
    (untar_absolute_member_stays_in_target [PathSeg.name 0, PathSeg.name 1]
      ⟨true, [PathSeg.name 2, PathSeg.dotdot, PathSeg.name 3]⟩ (by decide) (by decide)).1⟩

/-- Claim C2, counterexample: a relative member name of the form
`../../name2/name3` is joined onto the two-segment target directory
`name0/name1`, and the lexical clean performed by `filepath.Join`
resolves the `..` segments, creating `name2/name3` at the filesystem
root — outside the target directory.  The claim as stated (no file or
directory outside the target for `..`-relative members) is false of
`untar`. -/
theorem untar_dotdot_escape_counterexample :
    ¬ ([PathSeg.name 0, PathSeg.name 1] <+:
        untarFileDest [PathSeg.name 0, PathSeg.name 1]
          ⟨false, [PathSeg.dotdot, PathSeg.dotdot, PathSeg.name 2, PathSeg.name 3]⟩) := by
  decide

/-- Claim C3 (code bug).  When `manifest.json` decodes to an array whose
length is not `1`, `extractDetailsFromManifest` executes
`return manifestItem{}, err` — but `err` is `nil` on that path, so the
caller observes a `nil` error and cannot detect the failure, contradicting
the claimed fatal extraction error. -/
theorem extractDetailsFromManifest_len_ne_one_nil_error (ms : List manifestItem)
    (h : ms.length ≠ 1) : (extractDetailsFromManifest (.ok ms)).2 = none := by
  simp [extractDetailsFromManifest, h]

/-- Claim C3, witness: a two-entry manifest array produces a `nil`
error. -/
theorem extractDetailsFromManifest_len2_witness :
    ([emptyManifestItem, emptyManifestItem].length ≠ 1) ∧
      (extractDetailsFromManifest (.ok [emptyManifestItem, emptyManifestItem])).2 = none :=
  ⟨by decide, extractDetailsFromManifest_len_ne_one_nil_error
    [emptyManifestItem, emptyManifestItem] (by decide)⟩

/-- Claim C4 (corrected).  When stripping is active, the boundary removes
the first occurrence of the host-mount path `P` from `full_filename`; for
a filename that begins with `P` this removes the single leading copy of
`P` — but the remainder may itself begin with `P` again, so the claim
that no emitted `full_filename` begins with `P` is false (see the
counterexample). -/
theorem writeSingleScanData_strips_leading_occurrence (P full : List Char)
    (hP : P ≠ []) (hpre : P.isPrefixOf full = true) :
    writeSingleScanDataFullFilename P P full = full.drop P.length := by
  unfold writeSingleScanDataFullFilename stringsReplaceOnce
  rw [if_pos rfl]
  cases full with
  | nil => simp [stringsReplaceOnceAux]
  | cons c rest => simp [stringsReplaceOnceAux, hpre]

/-- Claim C4, witness: with `P = "/a"` the filename `"/a/x"` is emitted
as `"/x"`, its leading `P` removed. -/
theorem writeSingleScanData_strip_witness :
    (['/', 'a'] ≠ ([] : List Char)) ∧
      writeSingleScanDataFullFilename ['/', 'a'] ['/', 'a'] ['/', 'a', '/', 'x'] =
        List.drop (['/', 'a'] : List Char).length ['/', 'a', '/', 'x'] :=
  ⟨by decide, writeSingleScanData_strips_leading_occurrence ['/', 'a'] ['/', 'a', '/', 'x']
    (by decide) (by decide)⟩

/-- Claim C4, counterexample: with `P = "/a"` the record
`"/a/a/b"` is emitted as `"/a/b"`, which still begins with `P`, so the
claim that no written record's `full_filename` begins with `P` is false
of `writeSingleScanData`. -/
theorem writeSingleScanData_prefix_counterexample :
    (['/', 'a']).isPrefixOf
      (writeSingleScanDataFullFilename ['/', 'a'] ['/', 'a'] ['/', 'a', '/', 'a', '/', 'b']) =
      true := by
  decide

/-- Claim C5 (corrected).  The two directory-walk surfaces are equivalent
(`ScanSecretsInDirStream` sends exactly the findings `ScanSecretsInDir`
returns, in order), and the image-layer surfaces are equivalent whenever
every layer's directory creation and tar extraction succeed; but when a
layer's extraction fails the batch surface scans the partially extracted
directory while the stream surface skips the layer (see the
counterexample), so the unconditional equivalence claimed is false. -/
theorem scan_surfaces_equivalence :
    (∀ (opts : ScanOptions) (lid : Nat) (entries : List DirEntry),
        ScanSecretsInDirStream opts lid entries = ScanSecretsInDir opts lid entries) ∧
      ∀ (opts : ScanOptions) (layers : List LayerScanInput) (sent : List SecretFound) (ns : Nat),
        (∀ l ∈ layers, l.createDirOk = true ∧ l.extractOk = true) →
        processImageLayersStream opts layers sent ns =
          ((processImageLayers opts layers sent ns).1,
            (processImageLayers opts layers sent ns).2.1) :=
  ⟨stream_eq_batch_dir, fun opts => processImageLayersStream_eq_of_ok opts⟩

/-- Claim C5, witness: on a one-layer image whose directory creation and
extraction succeed, the stream surface sends exactly what the batch
surface returns. -/
theorem scan_surfaces_equivalence_witness :
    (∀ l ∈ [(⟨1, true, true,
          [⟨1, false, false, false, false, true, false, 0, false, false, [], [10]⟩]⟩ :
        LayerScanInput)], l.createDirOk = true ∧ l.extractOk = true) ∧
      processImageLayersStream ⟨256, 1000, false, 3⟩
          [⟨1, true, true, [⟨1, false, false, false, false, true, false, 0, false, false, [], [10]⟩]⟩]
          [] 0 =
        ((processImageLayers ⟨256, 1000, false, 3⟩
            [⟨1, true, true, [⟨1, false, false, false, false, true, false, 0, false, false, [], [10]⟩]⟩]
            [] 0).1,
          (processImageLayers ⟨256, 1000, false, 3⟩
            [⟨1, true, true, [⟨1, false, false, false, false, true, false, 0, false, false, [], [10]⟩]⟩]
            [] 0).2.1) :=
  ⟨by decide, scan_surfaces_equivalence.2 ⟨256, 1000, false, 3⟩
    [⟨1, true, true, [⟨1, false, false, false, false, true, false, 0, false, false, [], [10]⟩]⟩]
    [] 0 (by decide)⟩

/-- Claim C5, counterexample: a single layer whose tar extraction fails
but whose target directory contains a file with one metadata finding:
the batch surface returns that finding (it scans the partially extracted
directory) while the stream surface sends nothing (it `continue`s past
the layer), so the two surfaces are not equivalent. -/
theorem layer_stream_batch_counterexample :
    (processImageLayers ⟨256, 1000, false, 3⟩
        [⟨1, true, false, [⟨1, false, false, false, false, true, false, 0, false, false, [], [10]⟩]⟩]
        [] 0).1 ≠
      (processImageLayersStream ⟨256, 1000, false, 3⟩
        [⟨1, true, false, [⟨1, false, false, false, false, true, false, 0, false, false, [], [10]⟩]⟩]
        [] 0).1 := by
  decide

/-- Claim C6 (code bug).  `matchedRuleSet` is created once per walk in
`ScanSecretsInDir` and the same map is passed to the matcher for every
file of the walk, so with `multi-match` off a rule that produced a
finding in an earlier file is suppressed in every later file of the same
walk: two files both matching rule `7` yield one finding, and the map
handed to the second file's matcher already records rule `7`.  This
contradicts the claimed fresh, empty per-file map (and the `multi-match`
flag's own documentation of one match per pattern "for a file"). -/
theorem matchedRuleSet_shared_across_walk :
    ScanSecretsInDir ⟨256, 1000, false, 3⟩ 0
        [⟨1, false, false, false, false, true, false, 0, false, false, [7], []⟩,
         ⟨2, false, false, false, false, true, false, 0, false, false, [7], []⟩] =
      ([⟨7, 1, 0⟩], none) ∧
      ((filepathWalkDir ⟨256, 1000, false, 3⟩ 0
          [⟨1, false, false, false, false, true, false, 0, false, false, [7], []⟩]
          initialWalkState).1).matchedRuleSet = [(7, 1)] := by
  decide

/-- Claim C7 (confirmed).  If the walk reaches an entry whose
`Checkpoint` reports cancellation, the walk stops with exactly the state
it had accumulated before that entry: no further findings are appended
for that entry or any later entry, and `ScanSecretsInDir` still returns
every finding produced before the cancellation (with a `nil` error). -/
theorem scanSecretsInDir_cancellation (opts : ScanOptions) (lid : Nat)
    (pre post : List DirEntry) (e : DirEntry) (st : WalkState)
    (hpre : filepathWalkDir opts lid pre initialWalkState = (st, none))
    (hcancel : e.checkpointCancel = true) (hwe : e.walkError = false) :
    filepathWalkDir opts lid (pre ++ e :: post) initialWalkState =
        (st, some GoError.checkpointCancelled) ∧
      ScanSecretsInDir opts lid (pre ++ e :: post) = (st.secretsFound, none) := by
  have hstep : scanDirEntry opts lid st e = (st, some GoError.checkpointCancelled) := by
    simp [scanDirEntry, hwe, hcancel]
  have happ := filepathWalkDir_append opts lid pre (e :: post) initialWalkState
  rw [hpre] at happ
  have hwalk : filepathWalkDir opts lid (e :: post) st =
      (st, some GoError.checkpointCancelled) := by
    simp [filepathWalkDir, hstep]
  have hfull : filepathWalkDir opts lid (pre ++ e :: post) initialWalkState =
      (st, some GoError.checkpointCancelled) := by
    rw [happ]
    exact hwalk
  exact ⟨hfull, by rw [ScanSecretsInDir_eq, hfull]⟩

/-- Claim C7, witness: a walk that finds one secret, is cancelled at the
second entry, and would find another secret at the third entry returns
exactly the first finding. -/
theorem scanSecretsInDir_cancellation_witness :
    ScanSecretsInDir ⟨256, 1000, false, 3⟩ 0
        ([⟨1, false, false, false, false, true, false, 0, false, false, [], [5]⟩] ++
          ⟨2, false, true, false, false, true, false, 0, false, false, [], [6]⟩ ::
            [⟨3, false, false, false, false, true, false, 0, false, false, [], [8]⟩]) =
      ((⟨[⟨5, 1, 0⟩], 1, []⟩ : WalkState).secretsFound, none) :=
  (scanSecretsInDir_cancellation ⟨256, 1000, false, 3⟩ 0
    [⟨1, false, false, false, false, true, false, 0, false, false, [], [5]⟩]
    [⟨3, false, false, false, false, true, false, 0, false, false, [], [8]⟩]
    ⟨2, false, true, false, false, true, false, 0, false, false, [], [6]⟩
    ⟨[⟨5, 1, 0⟩], 1, []⟩ (by decide) (by decide) (by decide)).2

/-- Claim C8 (corrected).  The derived `LayerIds` list has the same
length and order as `Layers`, each element being the corresponding entry
with one trailing `/layer.tar` and then one trailing `.tar` removed, and
`imageId` is `Config` with a trailing `.json` removed; but the claimed
consequence that no derived `LayerId` ends in `.tar` (or `/layer.tar`) is
false when an entry stacks suffixes (see the counterexample). -/
theorem deriveLayerIds_spec (m : manifestItem) :
    (deriveLayerIds m).LayerIds.length = m.Layers.length ∧
      (∀ i : Nat, (deriveLayerIds m).LayerIds[i]? =
        (m.Layers[i]?).map
          (fun layer => stringsTrimSuffix (stringsTrimSuffix layer slashLayerTarSuffix)
            dotTarSuffix)) ∧
      extractImageImageId m = stringsTrimSuffix m.Config dotJsonSuffix := by
  refine ⟨by simp [deriveLayerIds], fun i => ?_, rfl⟩
  simp [deriveLayerIds, List.getElem?_map]

/-- Claim C8, counterexample: the layer path `a.tar.tar` has no
`/layer.tar` suffix, so only one `.tar` is stripped and the derived
`LayerId` `a.tar` still ends in `.tar`, contradicting the claimed
consequence. -/
theorem deriveLayerIds_tar_suffix_counterexample :
    (deriveLayerIds ⟨[], [], [['a', '.', 't', 'a', 'r', '.', 't', 'a', 'r']], []⟩).LayerIds =
        [['a', '.', 't', 'a', 'r']] ∧
      dotTarSuffix.isSuffixOf ['a', '.', 't', 'a', 'r'] = true := by
  decide

/-- Claim C9 (corrected).  `readFile` returns exactly the concatenation
of the scanner's non-empty lines, each followed by one newline, and the
result differs from the raw bytes whenever the file contains an empty
line or is non-empty and lacks a trailing newline; the original claim is
false for the empty file (see the counterexample), which lacks a trailing
newline yet is returned unchanged. -/
theorem readFile_lines_spec :
    (∀ cs : List Char, readFile cs =
        (((goScanLines cs).filter (fun l => l ≠ [])).map (fun l => l ++ ['\n'])).flatten) ∧
      ∀ cs : List Char, ([] ∈ goScanLines cs ∨ (cs ≠ [] ∧ cs.getLast? ≠ some '\n')) →
        readFile cs ≠ cs :=
  ⟨readFile_eq_flatten, readFile_ne_raw⟩

/-- Claim C9, witness: the one-byte file `"a"` lacks a trailing newline
and `readFile` returns `"a\n" ≠ "a"`. -/
theorem readFile_lines_spec_witness :
    ((['a'] : List Char) ≠ [] ∧ (['a'] : List Char).getLast? ≠ some '\n') ∧
      readFile ['a'] ≠ ['a'] :=
  ⟨by decide, readFile_lines_spec.2 ['a'] (Or.inr (by decide))⟩

/-- Claim C9, counterexample: the empty file lacks a trailing newline,
yet `readFile` returns it unchanged, so the claim that the result differs
from the raw bytes whenever the file lacks a trailing newline is false at
the empty file. -/
theorem readFile_empty_counterexample :
    readFile ([] : List Char) = [] ∧ (([] : List Char)).getLast? ≠ some '\n' :=
  ⟨rfl, by decide⟩

/-- Claim C10 (confirmed).  `ScanSecretsInDir` returns a `nil` error for
every input — per-entry walk errors, cancellation and the max-secrets
sentinel are only logged — and `ScanSecretsInDirStream` likewise returns
its channel with a `nil` error unconditionally, so a caller cannot
distinguish a completed walk from an aborted one by the return values. -/
theorem scanSecretsInDir_error_always_nil (opts : ScanOptions) (lid : Nat)
    (entries : List DirEntry) :
    (ScanSecretsInDir opts lid entries).2 = none ∧
      (ScanSecretsInDirStream opts lid entries).2 = none := by
  constructor
  · rw [ScanSecretsInDir_eq]
  · rfl

end SecretScanner
